import Mathlib

/-!
Verification of the orchestration core of the soccerdata data-warehousing fork.

The repository ships the SQL schema (`schema/*.sql`) and the operator
documentation of the extraction scripts; the Python orchestration layer itself
(orchestrator, retry policy, persistence gateway) is not part of the source
tree, so its operations are modelled here from the specification, on top of the
data model fixed by the SQL schema: the `data_load_status` table with its
`UNIQUE(data_source, table_name, league, season)` key, the per-table
`UNIQUE(league, season, game)` business keys, the `update_updated_at_column`
trigger, the `season_id` domain, and the documented retry defaults
(max_attempts=3, initial_delay=2, max_delay=60, backoff_base=2).
-/

set_option autoImplicit false

namespace Soccerdata

/-! ### Generic keyed tables and upsert

Modelled from the spec: the persistence gateway's
`upsert(table_name, unique_key_columns, rows) -> rows_written` performs
insert-or-update keyed by the declared unique key; an existing row with a
matching key has its non-key columns overwritten.  A table is a list of rows;
`key` extracts the declared unique key of a row. -/

/-- Whether some row of table `t` has key `k`. -/
def memKey {K R : Type} [DecidableEq K] (key : R → K) (t : List R) (k : K) : Bool :=
  t.any (fun x => decide (key x = k))

/-- The first row of `t` whose key is `k` (the row a SQL query by unique key returns). -/
def lookupKey {K R : Type} [DecidableEq K] (key : R → K) (t : List R) (k : K) : Option R :=
  t.find? (fun x => decide (key x = k))

/-- Modelled from the spec: insert-or-update of a single row, keyed by `key`
(`INSERT ... ON CONFLICT (unique_key) DO UPDATE`): a row with a matching key is
overwritten in place, otherwise the row is appended. -/
def upsertRow {K R : Type} [DecidableEq K] (key : R → K) (t : List R) (r : R) : List R :=
  if memKey key t (key r) then
    t.map (fun x => if key x = key r then r else x)
  else
    t ++ [r]

/-- Modelled from the spec: upsert of a whole extracted row set, row by row. -/
def upsert {K R : Type} [DecidableEq K] (key : R → K) (t : List R) (rows : List R) : List R :=
  rows.foldl (upsertRow key) t

/-- The table satisfies its declared UNIQUE constraint: no two rows share a key. -/
def NodupKeys {K R : Type} (key : R → K) (t : List R) : Prop :=
  (t.map key).Nodup

/-- Every row of `t` carrying key `c` is exactly the row `v`. -/
def KeyFixed {K R : Type} (key : R → K) (t : List R) (c : K) (v : R) : Prop :=
  ∀ x ∈ t, key x = c → x = v

/-! ### The status table

From `schema/00_database_setup.sql`: table `data_load_status` with columns
`data_source, table_name, league, season` (jointly UNIQUE), `status` constrained
to `pending | in_progress | completed | failed`, `rows_processed`,
`error_message`, `started_at`, `completed_at`, `last_updated`.  Timestamps are
abstracted as naturals. -/

/-- The natural key of `data_load_status`: `UNIQUE(data_source, table_name, league, season)`. -/
structure StatusKey where
  data_source : String
  table_name : String
  league : String
  season : String
deriving DecidableEq, Repr

/-- The `status` column's CHECK constraint: `pending | in_progress | completed | failed`. -/
inductive LoadState where
  | pending
  | in_progress
  | completed
  | failed
deriving DecidableEq, Repr

/-- The non-key columns of one `data_load_status` row. -/
structure StatusRow where
  status : LoadState
  rows_processed : Option Nat
  error_message : Option String
  started_at : Option Nat
  completed_at : Option Nat
  last_updated : Nat
deriving DecidableEq, Repr

/-- The `data_load_status` table: rows keyed by `StatusKey`. -/
abbrev StatusTable := List (StatusKey × StatusRow)

/-- Key extraction for status-table entries. -/
def entryKey : StatusKey × StatusRow → StatusKey := Prod.fst

/-- Modelled from the spec: `record_status(key, status, ...)` writes the status
row for `k` with upsert semantics over the table's unique key (overwrite, never
append a duplicate). -/
def recordStatus (tbl : StatusTable) (k : StatusKey) (r : StatusRow) : StatusTable :=
  upsertRow entryKey tbl (k, r)

/-- The `status` column currently stored for key `k`, if a row exists. -/
def statusAt (tbl : StatusTable) (k : StatusKey) : Option LoadState :=
  (lookupKey entryKey tbl k).map (fun e => e.2.status)

/-! ### Retry policy

Modelled from the spec and the Automatic Retry section of the extraction guide:
attempt 1 runs immediately; on a transient error, wait
`min(initial_delay * backoff_base^(attempt-1), max_delay)` before the next
attempt; give up after `max_attempts` total attempts surfacing the last
transient error as `RetryExhaustedError`; a permanent error is never
retried. -/

/-- Error taxonomy of a fetch: retryable transient failures versus permanent ones. -/
inductive FetchError where
  | transient (msg : String)
  | permanent (msg : String)
deriving DecidableEq, Repr

/-- Outcome of running an operation through the retry policy. -/
inductive RetryResult (α : Type) where
  | success (a : α)
  | exhausted (lastMsg : String)
  | permanentFail (msg : String)
deriving DecidableEq, Repr

/-- Retry configuration (`config/data_sources.yaml`). -/
structure RetryConfig where
  max_attempts : Nat
  initial_delay : Nat
  max_delay : Nat
  backoff_base : Nat
deriving DecidableEq, Repr

/-- The documented default configuration: 3 attempts, 2s initial delay,
60s cap, exponential base 2. -/
def defaultRetryConfig : RetryConfig :=
  { max_attempts := 3, initial_delay := 2, max_delay := 60, backoff_base := 2 }

/-- The wait before attempt `attempt + 1` after attempt `attempt` failed
transiently: `min(initial_delay * backoff_base^(attempt-1), max_delay)`. -/
def backoffDelay (cfg : RetryConfig) (attempt : Nat) : Nat :=
  min (cfg.initial_delay * cfg.backoff_base ^ (attempt - 1)) cfg.max_delay

/-- Modelled from the spec: the retry loop.  `op n` is the fetch behaviour on
attempt `n`; `fuel` is the number of attempts still allowed.  Returns the
outcome, the number of fetch calls made, and the list of backoff waits
performed. -/
def runWithRetryAux {α : Type} (cfg : RetryConfig) (op : Nat → Except FetchError α) :
    Nat → Nat → RetryResult α × Nat × List Nat
  | _, 0 => (.exhausted (""), 0, [])
  | attempt, fuel + 1 =>
    match op attempt with
    | .ok a => (.success a, 1, [])
    | .error (.permanent m) => (.permanentFail m, 1, [])
    | .error (.transient m) =>
      if fuel = 0 then
        (.exhausted m, 1, [])
      else
        let rest := runWithRetryAux cfg op (attempt + 1) fuel
        (rest.1, rest.2.1 + 1, backoffDelay cfg attempt :: rest.2.2)

/-- Modelled from the spec:
`run_with_retry(operation, max_attempts, initial_delay, max_delay, backoff_base)`. -/
def runWithRetry {α : Type} (cfg : RetryConfig) (op : Nat → Except FetchError α) :
    RetryResult α × Nat × List Nat :=
  runWithRetryAux cfg op 1 cfg.max_attempts

/-! ### The work-unit scheduler (orchestrator)

Modelled from the spec, section 4.5: per work unit, consult the prior status;
if `skip_completed` is set and the prior status is `completed`, skip with no
fetch and no status write; otherwise write `in_progress`, run the fetch through
the retry policy, and write `completed` or `failed`.  A fetch environment
`env u n` gives the behaviour of unit `u`'s fetch on attempt `n`, returning the
number of rows extracted on success. -/

/-- Modelled from the spec: processing of a single work unit.  Returns the new
status table and the number of fetch calls made for this unit. -/
def processUnit (cfg : RetryConfig) (env : StatusKey → Nat → Except FetchError Nat)
    (skip_completed : Bool) (now : Nat) (tbl : StatusTable) (u : StatusKey) :
    StatusTable × Nat :=
  let prior := lookupKey entryKey tbl u
  let isDone : Bool :=
    match prior with
    | some e => decide (e.2.status = LoadState.completed)
    | none => false
  if skip_completed && isDone then
    (tbl, 0)
  else
    let t1 := recordStatus tbl u
      { status := .in_progress, rows_processed := none, error_message := none,
        started_at := some now, completed_at := none, last_updated := now }
    match runWithRetry cfg (env u) with
    | (.success n, calls, _) =>
      (recordStatus t1 u
        { status := .completed, rows_processed := some n, error_message := none,
          started_at := some now, completed_at := some now, last_updated := now }, calls)
    | (.exhausted m, calls, _) =>
      (recordStatus t1 u
        { status := .failed, rows_processed := none,
          error_message := some (("RetryExhaustedError: ") ++ m),
          started_at := some now, completed_at := some now, last_updated := now }, calls)
    | (.permanentFail m, calls, _) =>
      (recordStatus t1 u
        { status := .failed, rows_processed := none,
          error_message := some (("PermanentFetchError: ") ++ m),
          started_at := some now, completed_at := some now, last_updated := now }, calls)

/-- Modelled from the spec: sequential processing of the enumerated work units,
threading the status table and accumulating the total number of fetch calls. -/
def runAux (cfg : RetryConfig) (env : StatusKey → Nat → Except FetchError Nat)
    (skip_completed : Bool) (now : Nat) :
    StatusTable × Nat → List StatusKey → StatusTable × Nat
  | acc, [] => acc
  | acc, u :: us =>
    let step := processUnit cfg env skip_completed now acc.1 u
    runAux cfg env skip_completed now (step.1, acc.2 + step.2) us

/-- Modelled from the spec: one orchestrator run over the enumerated units. -/
def runOrchestrator (cfg : RetryConfig) (env : StatusKey → Nat → Except FetchError Nat)
    (skip_completed : Bool) (now : Nat) (tbl : StatusTable) (units : List StatusKey) :
    StatusTable × Nat :=
  runAux cfg env skip_completed now (tbl, 0) units

/-! ### Business tables and the `updated_at` trigger

From the schema: business tables such as `understat_schedule` and
`matchhistory_games` carry `UNIQUE(league, season, game)`, a `created_at` and an
`updated_at` column, and a `BEFORE UPDATE` trigger executing
`update_updated_at_column`, which sets `NEW.updated_at = NOW()` on every row
update. -/

/-- The business key `UNIQUE(league, season, game)` shared by `understat_schedule`
and `matchhistory_games`. -/
structure BizKey where
  league : String
  season : String
  game : String
deriving DecidableEq, Repr

/-- One business-table row: its unique key, its business (non-key, non-audit)
columns collapsed into `value`, and the audit columns. -/
structure BizRow (V : Type) where
  key : BizKey
  value : V
  created_at : Nat
  updated_at : Nat
deriving DecidableEq, Repr

/-- From `schema/00_database_setup.sql`: the `update_updated_at_column` trigger
function, `NEW.updated_at = NOW()`, applied to every row being updated. -/
def update_updated_at_column {V : Type} (now : Nat) (r : BizRow V) : BizRow V :=
  { r with updated_at := now }

/-- Modelled from the spec: upsert into a business table.  On a key conflict the
business columns are overwritten and the `BEFORE UPDATE` trigger rewrites
`updated_at`; `created_at` is only assigned on insert (its SQL DEFAULT). -/
def upsertBiz {V : Type} (now : Nat) (t : List (BizRow V)) (k : BizKey) (v : V) :
    List (BizRow V) :=
  if t.any (fun x => decide (x.key = k)) then
    t.map (fun x =>
      if x.key = k then update_updated_at_column now { x with value := v } else x)
  else
    t ++ [{ key := k, value := v, created_at := now, updated_at := now }]

/-! ### Season identifiers

From `schema` (the `season_id` domain): `CHECK (VALUE ~ '^\d{2}(\d{2})?$')`,
i.e. a 2- or 4-digit string.  From the extraction guide's Season Format table:
`2021` is the 2020-2021 season, `2122` the 2021-2022 season, `2324` the
2023-2024 season — a 4-digit identifier concatenates the two-digit suffixes of
the start and end years. -/

/-- Numeric value of a digit character. -/
def digitVal (c : Char) : Nat := c.toNat - 48

/-- The `season_id` SQL domain: the regular expression `^\d{2}(\d{2})?$`. -/
def seasonIdOk (s : String) : Bool :=
  match s.data with
  | [a, b] => a.isDigit && b.isDigit
  | [a, b, c, d] => a.isDigit && b.isDigit && c.isDigit && d.isDigit
  | _ => false

/-- Start year encoded by a 4-digit season identifier, per the extraction
guide's table (`2021` = 2020-2021 season): the first two digits are the start
year's suffix within the 2000s. -/
def seasonStartYear (s : String) : Option Nat :=
  match s.data with
  | [a, b, c, d] =>
    if a.isDigit && b.isDigit && c.isDigit && d.isDigit then
      some (2000 + 10 * digitVal a + digitVal b)
    else none
  | _ => none

/-- End year encoded by a 4-digit season identifier: the last two digits are
the end year's suffix within the 2000s. -/
def seasonEndYear (s : String) : Option Nat :=
  match s.data with
  | [a, b, c, d] =>
    if a.isDigit && b.isDigit && c.isDigit && d.isDigit then
      some (2000 + 10 * digitVal c + digitVal d)
    else none
  | _ => none

/-- Digit character for `d % 10`. -/
def digitChar (d : Nat) : Char := Char.ofNat (48 + d % 10)

/-- Two-digit decimal suffix of a year, e.g. `2023 ↦ "23"`. -/
def twoDigitStr (n : Nat) : String :=
  String.mk [digitChar ((n / 10) % 10), digitChar (n % 10)]

/-- Season identifier of the season starting in year `y`: the two-digit
suffixes of `y` and `y + 1` concatenated (`2023 ↦ "2324"`). -/
def seasonCode (y : Nat) : String :=
  twoDigitStr y ++ twoDigitStr (y + 1)

/-- Modelled from the spec: the historical loader expands an explicit
`[start_year, end_year]` range into the season identifiers of the seasons
starting in each of those years (default range 2020-2024, i.e. seasons
2020-2021 through 2024-2025). -/
def expandYears (startYear endYear : Nat) : List String :=
  (List.range' startYear (endYear + 1 - startYear)).map seasonCode

/-! ### Sample data for concrete witnesses -/

/-- A sample work-unit key. -/
def kFbref : StatusKey :=
  { data_source := "fbref", table_name := "fbref_schedule",
    league := "ENG-Premier League", season := "2324" }

/-- A second, distinct sample work-unit key. -/
def kUnderstat : StatusKey :=
  { data_source := "understat", table_name := "understat_schedule",
    league := "ENG-Premier League", season := "2324" }

/-- A sample completed status row. -/
def rowCompleted : StatusRow :=
  { status := .completed, rows_processed := some 380, error_message := none,
    started_at := some 1, completed_at := some 2, last_updated := 2 }

/-- A sample in-progress status row (as left behind by an interrupted run). -/
def rowInProgress : StatusRow :=
  { status := .in_progress, rows_processed := none, error_message := none,
    started_at := some 1, completed_at := none, last_updated := 1 }

/-- A fetch environment that always fails transiently. -/
def envTransient : StatusKey → Nat → Except FetchError Nat :=
  fun _ _ => .error (.transient ("timeout"))

/-- A fetch environment that always fails permanently. -/
def envPermanent : StatusKey → Nat → Except FetchError Nat :=
  fun _ _ => .error (.permanent ("invalid league"))

/-- A fetch environment that always succeeds with 380 rows. -/
def envOk : StatusKey → Nat → Except FetchError Nat :=
  fun _ _ => .ok 380

/-- An always-transient operation for retry witnesses. -/
def opTransient : Nat → Except FetchError Nat :=
  fun _ => .error (.transient ("t"))

/-! ## Lemmas: keyed lookup and upsert -/

section KeyedLemmas

variable {K R : Type} [DecidableEq K] (key : R → K)

theorem memKey_iff {t : List R} {k : K} :
    memKey key t k = true ↔ ∃ x ∈ t, key x = k := by
  simp [memKey]

theorem keyOf_lookupKey {t : List R} {k : K} {x : R}
    (h : lookupKey key t k = some x) : key x = k := by
  unfold lookupKey at h
  simpa using List.find?_some h

theorem mem_of_lookupKey {t : List R} {k : K} {x : R}
    (h : lookupKey key t k = some x) : x ∈ t := by
  unfold lookupKey at h
  exact List.mem_of_find?_eq_some h

theorem lookupKey_isSome_of_memKey {t : List R} {k : K}
    (h : memKey key t k = true) : ∃ x, lookupKey key t k = some x := by
  rcases (memKey_iff key).mp h with ⟨x, hx, hk⟩
  cases hfind : lookupKey key t k with
  | some y => exact ⟨y, rfl⟩
  | none =>
    unfold lookupKey at hfind
    have := List.find?_eq_none.mp hfind x hx
    simp [hk] at this

theorem map_eq_self_of {f : R → R} {t : List R} (h : ∀ x ∈ t, f x = x) :
    t.map f = t := by
  induction t with
  | nil => rfl
  | cons y ys ih =>
    simp only [List.map_cons]
    rw [h y (List.mem_cons_self y ys), ih (fun x hx => h x (List.mem_cons_of_mem y hx))]

theorem find?_replace_self {t : List R} {r : R} (h : memKey key t (key r) = true) :
    (t.map (fun x => if key x = key r then r else x)).find?
      (fun x => decide (key x = key r)) = some r := by
  induction t with
  | nil => simp [memKey] at h
  | cons y ys ih =>
    simp only [List.map_cons]
    by_cases hy : key y = key r
    · rw [if_pos hy]
      exact List.find?_cons_of_pos _ (by simp)
    · rw [if_neg hy]
      rw [List.find?_cons_of_neg _ (by simp [hy])]
      apply ih
      rcases (memKey_iff key).mp h with ⟨x, hx, hk⟩
      rcases List.mem_cons.mp hx with rfl | hx'
      · exact absurd hk hy
      · exact (memKey_iff key).mpr ⟨x, hx', hk⟩

theorem find?_replace_ne {t : List R} {r : R} {k : K} (hk : k ≠ key r) :
    (t.map (fun x => if key x = key r then r else x)).find? (fun x => decide (key x = k)) =
      t.find? (fun x => decide (key x = k)) := by
  induction t with
  | nil => rfl
  | cons y ys ih =>
    simp only [List.map_cons]
    by_cases hy : key y = key r
    · have hry : ¬ (key r = k) := fun h => hk h.symm
      have hyk : ¬ (key y = k) := by rw [hy]; exact hry
      rw [if_pos hy, List.find?_cons_of_neg _ (by simpa using hry),
        List.find?_cons_of_neg _ (by simpa using hyk)]
      exact ih
    · rw [if_neg hy]
      by_cases hyk : key y = k
      · rw [List.find?_cons_of_pos _ (by simpa using hyk)]
        rw [List.find?_cons_of_pos _ (by simpa using hyk)]
      · rw [List.find?_cons_of_neg _ (by simpa using hyk)]
        rw [List.find?_cons_of_neg _ (by simpa using hyk)]
        exact ih

theorem lookupKey_upsertRow_self (t : List R) (r : R) :
    lookupKey key (upsertRow key t r) (key r) = some r := by
  unfold upsertRow
  by_cases h : memKey key t (key r) = true
  · rw [if_pos h]
    exact find?_replace_self key h
  · rw [if_neg h]
    unfold lookupKey
    rw [List.find?_append]
    have h1 : t.find? (fun x => decide (key x = key r)) = none := by
      rw [List.find?_eq_none]
      intro x hx
      simp only [decide_eq_true_eq]
      intro hc
      exact h ((memKey_iff key).mpr ⟨x, hx, hc⟩)
    rw [h1, Option.none_or]
    exact List.find?_cons_of_pos _ (by simp)

theorem lookupKey_upsertRow_ne (t : List R) (r : R) {k : K} (hk : k ≠ key r) :
    lookupKey key (upsertRow key t r) k = lookupKey key t k := by
  unfold upsertRow
  by_cases h : memKey key t (key r) = true
  · rw [if_pos h]
    exact find?_replace_ne key hk
  · rw [if_neg h]
    unfold lookupKey
    rw [List.find?_append]
    have h2 : List.find? (fun x => decide (key x = k)) [r] = none := by
      rw [List.find?_eq_none]
      intro x hx
      rcases List.mem_singleton.mp hx with rfl
      simp only [decide_eq_true_eq]
      exact fun hc => hk hc.symm
    rw [h2, Option.or_none]

theorem keyFixed_upsertRow_self (t : List R) (r : R) :
    KeyFixed key (upsertRow key t r) (key r) r := by
  intro x hx hk
  unfold upsertRow at hx
  by_cases h : memKey key t (key r) = true
  · rw [if_pos h] at hx
    rcases List.mem_map.mp hx with ⟨y, hy, hxy⟩
    by_cases hyr : key y = key r
    · rw [if_pos hyr] at hxy
      exact hxy.symm
    · rw [if_neg hyr] at hxy
      subst hxy
      exact absurd hk hyr
  · rw [if_neg h] at hx
    rcases List.mem_append.mp hx with hx' | hx'
    · exact absurd ((memKey_iff key).mpr ⟨x, hx', hk⟩) h
    · exact List.mem_singleton.mp hx'

theorem keyFixed_upsertRow_other {t : List R} {c : K} {v : R} (hf : KeyFixed key t c v)
    {r : R} (hr : key r ≠ c) : KeyFixed key (upsertRow key t r) c v := by
  intro x hx hk
  unfold upsertRow at hx
  by_cases h : memKey key t (key r) = true
  · rw [if_pos h] at hx
    rcases List.mem_map.mp hx with ⟨y, hy, hxy⟩
    by_cases hyr : key y = key r
    · rw [if_pos hyr] at hxy
      subst hxy
      exact absurd hk hr
    · rw [if_neg hyr] at hxy
      subst hxy
      exact hf y hy hk
  · rw [if_neg h] at hx
    rcases List.mem_append.mp hx with hx' | hx'
    · exact hf x hx' hk
    · rcases List.mem_singleton.mp hx' with rfl
      exact absurd hk hr

theorem memKey_upsertRow_self (t : List R) (r : R) :
    memKey key (upsertRow key t r) (key r) = true := by
  have h := lookupKey_upsertRow_self key t r
  exact (memKey_iff key).mpr ⟨r, mem_of_lookupKey key h, rfl⟩

theorem memKey_upsertRow_mono {t : List R} {k : K} (h : memKey key t k = true) (r : R) :
    memKey key (upsertRow key t r) k = true := by
  rcases (memKey_iff key).mp h with ⟨x, hx, hk⟩
  unfold upsertRow
  by_cases hm : memKey key t (key r) = true
  · rw [if_pos hm]
    by_cases hxr : key x = key r
    · refine (memKey_iff key).mpr ⟨r, List.mem_map.mpr ⟨x, hx, by rw [if_pos hxr]⟩, ?_⟩
      rw [← hxr]
      exact hk
    · exact (memKey_iff key).mpr ⟨x, List.mem_map.mpr ⟨x, hx, by rw [if_neg hxr]⟩, hk⟩
  · rw [if_neg hm]
    exact (memKey_iff key).mpr ⟨x, List.mem_append.mpr (Or.inl hx), hk⟩

theorem upsertRow_eq_self {t : List R} {r : R} (hm : memKey key t (key r) = true)
    (hf : KeyFixed key t (key r) r) : upsertRow key t r = t := by
  unfold upsertRow
  rw [if_pos hm]
  apply map_eq_self_of
  intro x hx
  by_cases hy : key x = key r
  · rw [if_pos hy]
    exact (hf x hx hy).symm
  · rw [if_neg hy]

theorem map_key_upsertRow_of_mem {t : List R} {r : R} (h : memKey key t (key r) = true) :
    (upsertRow key t r).map key = t.map key := by
  unfold upsertRow
  rw [if_pos h, List.map_map]
  apply List.map_congr_left
  intro x _
  simp only [Function.comp]
  by_cases hx : key x = key r
  · rw [if_pos hx, hx]
  · rw [if_neg hx]

theorem nodupKeys_upsertRow {t : List R} (h : NodupKeys key t) (r : R) :
    NodupKeys key (upsertRow key t r) := by
  unfold NodupKeys
  by_cases hm : memKey key t (key r) = true
  · rw [map_key_upsertRow_of_mem key hm]
    exact h
  · unfold upsertRow
    rw [if_neg hm, List.map_append]
    refine List.Nodup.append h (List.nodup_singleton _) ?_
    intro a ha hb
    rcases List.mem_singleton.mp (by simpa using hb) with rfl
    rcases List.mem_map.mp ha with ⟨x, hx, hk⟩
    exact hm ((memKey_iff key).mpr ⟨x, hx, hk⟩)

theorem nodupKeys_upsert : ∀ (rows : List R) (t : List R), NodupKeys key t →
    NodupKeys key (upsert key t rows) := by
  intro rows
  induction rows with
  | nil => intro t h; exact h
  | cons r rs ih =>
    intro t h
    exact ih (upsertRow key t r) (nodupKeys_upsertRow key h r)

theorem memKey_upsert_mono {k : K} : ∀ (rows : List R) (t : List R),
    memKey key t k = true → memKey key (upsert key t rows) k = true := by
  intro rows
  induction rows with
  | nil => intro t h; exact h
  | cons r rs ih =>
    intro t h
    exact ih (upsertRow key t r) (memKey_upsertRow_mono key h r)

theorem keyFixed_upsert_other {c : K} {v : R} : ∀ (rows : List R) (t : List R),
    (∀ r ∈ rows, key r ≠ c) → KeyFixed key t c v →
      KeyFixed key (upsert key t rows) c v := by
  intro rows
  induction rows with
  | nil => intro t _ h; exact h
  | cons r rs ih =>
    intro t hrows h
    exact ih (upsertRow key t r) (fun x hx => hrows x (List.mem_cons_of_mem r hx))
      (keyFixed_upsertRow_other key h (hrows r (List.mem_cons_self r rs)))

theorem upsert_upsert_self : ∀ (rows : List R) (t : List R), (rows.map key).Nodup →
    upsert key (upsert key t rows) rows = upsert key t rows := by
  intro rows
  induction rows with
  | nil => intro t _; rfl
  | cons r rs ih =>
    intro t hnd
    rw [List.map_cons, List.nodup_cons] at hnd
    obtain ⟨hnotin, hnd'⟩ := hnd
    show upsert key (upsertRow key (upsert key (upsertRow key t r) rs) r) rs
        = upsert key (upsertRow key t r) rs
    have habs : upsertRow key (upsert key (upsertRow key t r) rs) r
        = upsert key (upsertRow key t r) rs := by
      apply upsertRow_eq_self key
      · exact memKey_upsert_mono key rs _ (memKey_upsertRow_self key t r)
      · refine keyFixed_upsert_other key rs _ ?_ (keyFixed_upsertRow_self key t r)
        intro r' hr' hc
        exact hnotin (hc ▸ List.mem_map_of_mem key hr')
    rw [habs]
    exact ih (upsertRow key t r) hnd'

theorem lookupKey_upsert_mem {rows : List R} (hnd : (rows.map key).Nodup) (t : List R)
    {r : R} (hr : r ∈ rows) : lookupKey key (upsert key t rows) (key r) = some r := by
  obtain ⟨l1, l2, rfl⟩ := List.append_of_mem hr
  have hsplit : upsert key t (l1 ++ r :: l2)
      = upsert key (upsertRow key (upsert key t l1) r) l2 := by
    unfold upsert
    rw [List.foldl_append]
    rfl
  rw [hsplit]
  have hmem : memKey key (upsert key (upsertRow key (upsert key t l1) r) l2) (key r) = true :=
    memKey_upsert_mono key l2 _ (memKey_upsertRow_self key _ r)
  have hl2 : ∀ r' ∈ l2, key r' ≠ key r := by
    intro r' hr' hc
    have hnd' : (l1.map key ++ key r :: l2.map key).Nodup := by simpa using hnd
    have h2 := (List.nodup_append.mp hnd').2.1
    rw [List.nodup_cons] at h2
    exact h2.1 (hc ▸ List.mem_map_of_mem key hr')
  have hfix : KeyFixed key (upsert key (upsertRow key (upsert key t l1) r) l2) (key r) r :=
    keyFixed_upsert_other key l2 _ hl2 (keyFixed_upsertRow_self key _ r)
  obtain ⟨x, hx⟩ := lookupKey_isSome_of_memKey key hmem
  rw [hx, hfix x (mem_of_lookupKey key hx) (keyOf_lookupKey key hx)]

theorem filter_key_eq_of_nodup : ∀ (t : List R), NodupKeys key t → ∀ {r : R}, r ∈ t →
    t.filter (fun x => decide (key x = key r)) = [r] := by
  intro t
  induction t with
  | nil => intro _ r hr; cases hr
  | cons y ys ih =>
    intro h r hr
    have h' : key y ∉ ys.map key ∧ (ys.map key).Nodup := by
      simpa [NodupKeys] using h
    rcases List.mem_cons.mp hr with rfl | hr'
    · rw [List.filter_cons_of_pos (by simp)]
      have hnil : ys.filter (fun x => decide (key x = key r)) = [] := by
        apply List.filter_eq_nil_iff.mpr
        intro a ha
        simp only [decide_eq_true_eq]
        intro hc
        exact h'.1 (hc ▸ List.mem_map_of_mem key ha)
      rw [hnil]
    · have hyr : ¬ (key y = key r) := by
        intro hc
        apply h'.1
        rw [hc]
        exact List.mem_map_of_mem key hr'
      rw [List.filter_cons_of_neg (by simpa using hyr)]
      exact ih h'.2 hr'

end KeyedLemmas

/-! ## Lemmas: retry policy -/

section RetryLemmas

variable {α : Type}

theorem runWithRetryAux_last (cfg : RetryConfig) (op : Nat → Except FetchError α)
    (attempt : Nat) (m : String) (hop : op attempt = .error (.transient m)) :
    runWithRetryAux cfg op attempt 1 = (.exhausted m, 1, []) := by
  simp [runWithRetryAux, hop]

theorem runWithRetryAux_succ (cfg : RetryConfig) (op : Nat → Except FetchError α)
    (attempt fuel : Nat) (m : String) (hop : op attempt = .error (.transient m))
    (hfuel : fuel ≠ 0) :
    runWithRetryAux cfg op attempt (fuel + 1)
      = ((runWithRetryAux cfg op (attempt + 1) fuel).1,
         (runWithRetryAux cfg op (attempt + 1) fuel).2.1 + 1,
         backoffDelay cfg attempt :: (runWithRetryAux cfg op (attempt + 1) fuel).2.2) := by
  simp [runWithRetryAux, hop, hfuel]

theorem runWithRetryAux_transient (cfg : RetryConfig) (op : Nat → Except FetchError α)
    (msgs : Nat → String) (hop : ∀ n, op n = .error (.transient (msgs n))) :
    ∀ (f attempt : Nat), runWithRetryAux cfg op attempt (f + 1)
      = (.exhausted (msgs (attempt + f)), f + 1,
         (List.range' attempt f).map (backoffDelay cfg)) := by
  intro f
  induction f with
  | zero =>
    intro attempt
    rw [runWithRetryAux_last cfg op attempt (msgs attempt) (hop attempt)]
    simp
  | succ g ih =>
    intro attempt
    rw [runWithRetryAux_succ cfg op attempt (g + 1) (msgs attempt) (hop attempt)
      (Nat.succ_ne_zero g)]
    rw [ih (attempt + 1)]
    have harith : attempt + 1 + g = attempt + (g + 1) := by omega
    rw [harith, List.range'_succ]
    simp

theorem runWithRetry_transient (cfg : RetryConfig) (op : Nat → Except FetchError α)
    (msgs : Nat → String) (hop : ∀ n, op n = .error (.transient (msgs n)))
    (hM : 1 ≤ cfg.max_attempts) :
    runWithRetry cfg op = (.exhausted (msgs cfg.max_attempts), cfg.max_attempts,
      (List.range' 1 (cfg.max_attempts - 1)).map (backoffDelay cfg)) := by
  obtain ⟨f, hf⟩ : ∃ f, cfg.max_attempts = f + 1 := ⟨cfg.max_attempts - 1, by omega⟩
  unfold runWithRetry
  rw [hf, runWithRetryAux_transient cfg op msgs hop f 1, Nat.add_comm 1 f]
  simp

theorem runWithRetry_permanent (cfg : RetryConfig) (op : Nat → Except FetchError α)
    (m : String) (hop : op 1 = .error (.permanent m)) (hM : 1 ≤ cfg.max_attempts) :
    runWithRetry cfg op = (.permanentFail m, 1, []) := by
  obtain ⟨f, hf⟩ : ∃ f, cfg.max_attempts = f + 1 := ⟨cfg.max_attempts - 1, by omega⟩
  unfold runWithRetry
  rw [hf]
  simp [runWithRetryAux, hop]

theorem runWithRetry_calls_pos (cfg : RetryConfig) (op : Nat → Except FetchError α)
    (hM : 1 ≤ cfg.max_attempts) : 1 ≤ (runWithRetry cfg op).2.1 := by
  obtain ⟨f, hf⟩ : ∃ f, cfg.max_attempts = f + 1 := ⟨cfg.max_attempts - 1, by omega⟩
  unfold runWithRetry
  rw [hf]
  cases hop : op 1 with
  | ok a => simp [runWithRetryAux, hop]
  | error e =>
    cases e with
    | permanent m => simp [runWithRetryAux, hop]
    | transient m =>
      by_cases hfz : f = 0
      · subst hfz
        simp [runWithRetryAux, hop]
      · rw [runWithRetryAux_succ cfg op 1 f m hop hfz]
        exact Nat.le_add_left 1 _

end RetryLemmas

/-! ## Lemmas: status table and orchestrator -/

theorem lookupKey_recordStatus_self (tbl : StatusTable) (k : StatusKey) (r : StatusRow) :
    lookupKey entryKey (recordStatus tbl k r) k = some (k, r) :=
  lookupKey_upsertRow_self entryKey tbl (k, r)

theorem lookupKey_recordStatus_ne (tbl : StatusTable) (k : StatusKey) (r : StatusRow)
    {k' : StatusKey} (h : k' ≠ k) :
    lookupKey entryKey (recordStatus tbl k r) k' = lookupKey entryKey tbl k' :=
  lookupKey_upsertRow_ne entryKey tbl (k, r) h

theorem processUnit_skip (cfg : RetryConfig) (env : StatusKey → Nat → Except FetchError Nat)
    (now : Nat) (tbl : StatusTable) (u : StatusKey) {e : StatusKey × StatusRow}
    (he : lookupKey entryKey tbl u = some e) (hst : e.2.status = LoadState.completed) :
    processUnit cfg env true now tbl u = (tbl, 0) := by
  simp [processUnit, he, hst]

theorem processUnit_frame (cfg : RetryConfig) (env : StatusKey → Nat → Except FetchError Nat)
    (skip : Bool) (now : Nat) (tbl : StatusTable) (u : StatusKey) {k : StatusKey}
    (hk : k ≠ u) :
    lookupKey entryKey (processUnit cfg env skip now tbl u).1 k
      = lookupKey entryKey tbl k := by
  simp only [processUnit]
  split
  · rfl
  · split
    all_goals rw [lookupKey_recordStatus_ne _ _ _ hk, lookupKey_recordStatus_ne _ _ _ hk]

theorem processUnit_terminal (cfg : RetryConfig) (env : StatusKey → Nat → Except FetchError Nat)
    (skip : Bool) (now : Nat) (tbl : StatusTable) (u : StatusKey) :
    statusAt (processUnit cfg env skip now tbl u).1 u = some LoadState.completed ∨
    statusAt (processUnit cfg env skip now tbl u).1 u = some LoadState.failed := by
  simp only [processUnit]
  split
  · next hcond =>
    left
    have hd := (Bool.and_eq_true _ _).mp hcond |>.2
    cases hp : lookupKey entryKey tbl u with
    | none =>
      rw [hp] at hd
      exact Bool.noConfusion hd
    | some e =>
      rw [hp] at hd
      simp only [decide_eq_true_eq] at hd
      show statusAt tbl u = some LoadState.completed
      unfold statusAt
      rw [hp]
      simp [hd]
  · split
    · left
      unfold statusAt
      rw [lookupKey_recordStatus_self]
      rfl
    · right
      unfold statusAt
      rw [lookupKey_recordStatus_self]
      rfl
    · right
      unfold statusAt
      rw [lookupKey_recordStatus_self]
      rfl

theorem processUnit_lookup_self_congr (cfg : RetryConfig)
    (env1 env2 : StatusKey → Nat → Except FetchError Nat) (skip : Bool) (now : Nat)
    (t1 t2 : StatusTable) (u : StatusKey) (henv : env1 u = env2 u)
    (hprior : lookupKey entryKey t1 u = lookupKey entryKey t2 u) :
    lookupKey entryKey (processUnit cfg env1 skip now t1 u).1 u =
    lookupKey entryKey (processUnit cfg env2 skip now t2 u).1 u := by
  simp only [processUnit, henv, hprior]
  cases hp : lookupKey entryKey t2 u with
  | none =>
    simp only [hp, Bool.and_false, Bool.false_eq_true, if_false]
    rcases hR : runWithRetry cfg (env2 u) with ⟨res, calls, waits⟩
    cases res <;> simp only [hR] <;>
      rw [lookupKey_recordStatus_self, lookupKey_recordStatus_self]
  | some e =>
    simp only [hp]
    by_cases hc : (skip && decide (e.2.status = LoadState.completed)) = true
    · rw [if_pos hc, if_pos hc]
      exact hprior
    · rw [if_neg hc, if_neg hc]
      rcases hR : runWithRetry cfg (env2 u) with ⟨res, calls, waits⟩
      cases res <;> simp only [hR] <;>
        rw [lookupKey_recordStatus_self, lookupKey_recordStatus_self]

theorem runAux_lookup_congr (cfg : RetryConfig)
    (env1 env2 : StatusKey → Nat → Except FetchError Nat) (skip : Bool) (now : Nat)
    (A : StatusKey) (henv : ∀ u, u ≠ A → env1 u = env2 u) {B : StatusKey} (hB : B ≠ A) :
    ∀ (units : List StatusKey) (acc1 acc2 : StatusTable × Nat),
      lookupKey entryKey acc1.1 B = lookupKey entryKey acc2.1 B →
      lookupKey entryKey (runAux cfg env1 skip now acc1 units).1 B =
      lookupKey entryKey (runAux cfg env2 skip now acc2 units).1 B := by
  intro units
  induction units with
  | nil => intro acc1 acc2 h; exact h
  | cons u us ih =>
    intro acc1 acc2 h
    refine ih ((processUnit cfg env1 skip now acc1.1 u).1,
        acc1.2 + (processUnit cfg env1 skip now acc1.1 u).2)
      ((processUnit cfg env2 skip now acc2.1 u).1,
        acc2.2 + (processUnit cfg env2 skip now acc2.1 u).2) ?_
    by_cases hu : u = B
    · subst hu
      exact processUnit_lookup_self_congr cfg env1 env2 skip now acc1.1 acc2.1 u (henv u hB) h
    · rw [processUnit_frame cfg env1 skip now acc1.1 u (Ne.symm hu),
        processUnit_frame cfg env2 skip now acc2.1 u (Ne.symm hu)]
      exact h

theorem runAux_all_completed (cfg : RetryConfig)
    (env : StatusKey → Nat → Except FetchError Nat) (now : Nat) :
    ∀ (units : List StatusKey) (tbl : StatusTable) (c : Nat),
      (∀ u ∈ units, ∃ e, lookupKey entryKey tbl u = some e ∧
        e.2.status = LoadState.completed) →
      runAux cfg env true now (tbl, c) units = (tbl, c) := by
  intro units
  induction units with
  | nil => intro tbl c _; rfl
  | cons u us ih =>
    intro tbl c h
    obtain ⟨e, he, hst⟩ := h u (List.mem_cons_self u us)
    have hskip : processUnit cfg env true now tbl u = (tbl, 0) :=
      processUnit_skip cfg env now tbl u he hst
    show runAux cfg env true now
      ((processUnit cfg env true now tbl u).1, c + (processUnit cfg env true now tbl u).2)
      us = (tbl, c)
    rw [hskip]
    show runAux cfg env true now (tbl, c + 0) us = (tbl, c)
    rw [Nat.add_zero]
    exact ih tbl c (fun v hv => h v (List.mem_cons_of_mem u hv))

theorem statusAt_processUnit_frame (cfg : RetryConfig)
    (env : StatusKey → Nat → Except FetchError Nat) (skip : Bool) (now : Nat)
    (tbl : StatusTable) (u : StatusKey) {k : StatusKey} (hk : k ≠ u) :
    statusAt (processUnit cfg env skip now tbl u).1 k = statusAt tbl k := by
  unfold statusAt
  rw [processUnit_frame cfg env skip now tbl u hk]

theorem runAux_statusAt_frame (cfg : RetryConfig)
    (env : StatusKey → Nat → Except FetchError Nat) (skip : Bool) (now : Nat) :
    ∀ (units : List StatusKey) (acc : StatusTable × Nat) {k : StatusKey},
      (∀ u ∈ units, u ≠ k) →
      statusAt (runAux cfg env skip now acc units).1 k = statusAt acc.1 k := by
  intro units
  induction units with
  | nil => intro acc k _; rfl
  | cons u us ih =>
    intro acc k h
    have hstep := statusAt_processUnit_frame cfg env skip now acc.1 u
      (Ne.symm (h u (List.mem_cons_self u us)))
    calc statusAt (runAux cfg env skip now
          ((processUnit cfg env skip now acc.1 u).1,
           acc.2 + (processUnit cfg env skip now acc.1 u).2) us).1 k
        = statusAt (processUnit cfg env skip now acc.1 u).1 k :=
          ih _ (fun v hv => h v (List.mem_cons_of_mem u hv))
      _ = statusAt acc.1 k := hstep

theorem runAux_terminal (cfg : RetryConfig)
    (env : StatusKey → Nat → Except FetchError Nat) (skip : Bool) (now : Nat) :
    ∀ (units : List StatusKey) (acc : StatusTable × Nat) {u : StatusKey}, u ∈ units →
      statusAt (runAux cfg env skip now acc units).1 u = some LoadState.completed ∨
      statusAt (runAux cfg env skip now acc units).1 u = some LoadState.failed := by
  intro units
  induction units with
  | nil => intro acc u hu; cases hu
  | cons v vs ih =>
    intro acc u hu
    by_cases hmem : u ∈ vs
    · exact ih _ hmem
    · have hv : u = v := by
        rcases List.mem_cons.mp hu with h | h
        · exact h
        · exact absurd h hmem
      subst hv
      have hterm := processUnit_terminal cfg env skip now acc.1 u
      have hframe := runAux_statusAt_frame cfg env skip now vs
        ((processUnit cfg env skip now acc.1 u).1,
         acc.2 + (processUnit cfg env skip now acc.1 u).2)
        (fun w hw hwu => hmem (by rwa [hwu] at hw))
      show statusAt (runAux cfg env skip now
        ((processUnit cfg env skip now acc.1 u).1,
         acc.2 + (processUnit cfg env skip now acc.1 u).2) vs).1 u
          = some LoadState.completed ∨
        statusAt (runAux cfg env skip now
        ((processUnit cfg env skip now acc.1 u).1,
         acc.2 + (processUnit cfg env skip now acc.1 u).2) vs).1 u
          = some LoadState.failed
      rw [hframe]
      exact hterm

theorem processUnit_in_progress_runs (cfg : RetryConfig)
    (env : StatusKey → Nat → Except FetchError Nat) (skip : Bool) (now : Nat)
    (tbl : StatusTable) (u : StatusKey) (hM : 1 ≤ cfg.max_attempts)
    {e : StatusKey × StatusRow} (he : lookupKey entryKey tbl u = some e)
    (hst : e.2.status = LoadState.in_progress) :
    1 ≤ (processUnit cfg env skip now tbl u).2 := by
  simp only [processUnit, he, hst]
  have hpos := runWithRetry_calls_pos cfg (env u) hM
  rcases hR : runWithRetry cfg (env u) with ⟨res, calls, waits⟩
  rw [hR] at hpos
  cases res <;> simp [hR] <;> exact hpos

/-! ## Lemmas: business tables and the `updated_at` trigger -/

theorem lookupKey_upsertBiz {V : Type} (now : Nat) :
    ∀ (t : List (BizRow V)) (k : BizKey) (v : V) (x : BizRow V),
      lookupKey BizRow.key t k = some x →
      lookupKey BizRow.key (upsertBiz now t k v) k
        = some { key := x.key, value := v, created_at := x.created_at,
                 updated_at := now } := by
  intro t
  induction t with
  | nil =>
    intro k v x hx
    simp [lookupKey] at hx
  | cons y ys ih =>
    intro k v x hx
    by_cases hy : y.key = k
    · have hxy : x = y := by
        unfold lookupKey at hx
        rw [List.find?_cons_of_pos _ (by simpa using hy)] at hx
        exact (Option.some_inj.mp hx).symm
      have hany : (y :: ys).any (fun z => decide (z.key = k)) = true := by
        simp [hy]
      rw [hxy]
      unfold upsertBiz
      rw [if_pos hany, List.map_cons, if_pos hy]
      unfold lookupKey
      rw [List.find?_cons_of_pos _ (by simp [update_updated_at_column, hy])]
      rfl
    · have hx' : lookupKey BizRow.key ys k = some x := by
        unfold lookupKey at hx ⊢
        rwa [List.find?_cons_of_neg _ (by simpa using hy)] at hx
      have hanyys : ys.any (fun z => decide (z.key = k)) = true :=
        (memKey_iff BizRow.key).mpr
          ⟨x, mem_of_lookupKey BizRow.key hx', keyOf_lookupKey BizRow.key hx'⟩
      have hany : (y :: ys).any (fun z => decide (z.key = k)) = true := by
        simp only [List.any_cons, hanyys, Bool.or_true]
      unfold upsertBiz
      rw [if_pos hany, List.map_cons, if_neg hy]
      unfold lookupKey
      rw [List.find?_cons_of_neg _ (by simpa using hy)]
      have hrec := ih k v x hx'
      unfold upsertBiz at hrec
      rw [if_pos hanyys] at hrec
      unfold lookupKey at hrec
      exact hrec

/-! ## Lemmas: season identifiers -/

theorem digitVal_digitChar (d : Nat) : digitVal (digitChar d) = d % 10 := by
  have h : d % 10 < 10 := Nat.mod_lt _ (by norm_num)
  unfold digitChar
  generalize hm : d % 10 = m at h ⊢
  interval_cases m <;> decide

theorem isDigit_digitChar (d : Nat) : (digitChar d).isDigit = true := by
  have h : d % 10 < 10 := Nat.mod_lt _ (by norm_num)
  unfold digitChar
  generalize hm : d % 10 = m at h ⊢
  interval_cases m <;> decide

theorem seasonCode_data (y : Nat) :
    (seasonCode y).data = [digitChar ((y / 10) % 10), digitChar (y % 10),
      digitChar (((y + 1) / 10) % 10), digitChar ((y + 1) % 10)] := rfl

theorem seasonCode_length (y : Nat) : (seasonCode y).length = 4 := rfl

theorem seasonIdOk_seasonCode (y : Nat) : seasonIdOk (seasonCode y) = true := by
  unfold seasonIdOk
  rw [seasonCode_data]
  simp [isDigit_digitChar]

theorem seasonStartYear_seasonCode {y : Nat} (h1 : 2000 ≤ y) (h2 : y < 2099) :
    seasonStartYear (seasonCode y) = some y := by
  unfold seasonStartYear
  rw [seasonCode_data]
  simp only [isDigit_digitChar, Bool.and_self, if_true, digitVal_digitChar,
    Option.some.injEq]
  omega

theorem seasonEndYear_seasonCode {y : Nat} (h1 : 2000 ≤ y) (h2 : y < 2099) :
    seasonEndYear (seasonCode y) = some (y + 1) := by
  unfold seasonEndYear
  rw [seasonCode_data]
  simp only [isDigit_digitChar, Bool.and_self, if_true, digitVal_digitChar,
    Option.some.injEq]
  omega

theorem seasonIdOk_length {s : String} (h : seasonIdOk s = true) :
    s.length = 2 ∨ s.length = 4 := by
  unfold seasonIdOk at h
  rcases s with ⟨data⟩
  rcases data with _ | ⟨a, _ | ⟨b, _ | ⟨c, _ | ⟨d, _ | ⟨e, rest⟩⟩⟩⟩⟩
  · exact Bool.noConfusion h
  · exact Bool.noConfusion h
  · left; rfl
  · exact Bool.noConfusion h
  · right; rfl
  · exact Bool.noConfusion h

/-! ## Additional sample data for witnesses -/

/-- A fetch environment failing permanently on the fbref unit only. -/
def envFailA : StatusKey → Nat → Except FetchError Nat :=
  fun u _ => if u = kFbref then .error (.permanent ("boom")) else .ok 5

/-- The same environment with the fbref unit succeeding instead. -/
def envOkA : StatusKey → Nat → Except FetchError Nat :=
  fun u _ => if u = kFbref then .ok 7 else .ok 5

/-- A sample business key. -/
def bizK1 : BizKey :=
  { league := "ENG-Premier League", season := "2324", game := "Arsenal-Forest" }

/-- A second sample business key. -/
def bizK2 : BizKey :=
  { league := "ENG-Premier League", season := "2324", game := "Chelsea-Spurs" }

/-- A sample business row. -/
def bizRow1 : BizRow Nat :=
  { key := bizK1, value := 3, created_at := 10, updated_at := 10 }

/-! ## Claim theorems -/

/-- C1: the `data_load_status` table keeps at most one row per
`(data_source, table_name, league, season)` key: recording a status twice for
the same key (in particular recording `completed` twice) leaves exactly one row
for that key, holding the second write's values — an overwrite, never an
appended duplicate — and the table's unique-key invariant is preserved. -/
theorem record_status_upsert_unique (tbl : StatusTable) (h : NodupKeys entryKey tbl)
    (k : StatusKey) (r1 r2 : StatusRow) :
    (recordStatus (recordStatus tbl k r1) k r2).filter
        (fun e => decide (entryKey e = k)) = [(k, r2)] ∧
    lookupKey entryKey (recordStatus (recordStatus tbl k r1) k r2) k = some (k, r2) ∧
    NodupKeys entryKey (recordStatus (recordStatus tbl k r1) k r2) := by
  have hnd : NodupKeys entryKey (recordStatus (recordStatus tbl k r1) k r2) :=
    nodupKeys_upsertRow entryKey (nodupKeys_upsertRow entryKey h (k, r1)) (k, r2)
  have hlook := lookupKey_recordStatus_self (recordStatus tbl k r1) k r2
  have hmem := mem_of_lookupKey entryKey hlook
  exact ⟨filter_key_eq_of_nodup entryKey _ hnd hmem, hlook, hnd⟩

/-- Witness for C1 at a concrete table: recording `in_progress` then
`completed` for one key leaves exactly one row, the second write. -/
theorem record_status_upsert_unique_witness :
    NodupKeys entryKey ([] : StatusTable) ∧
    ((recordStatus (recordStatus ([] : StatusTable) kFbref rowInProgress)
        kFbref rowCompleted).filter (fun e => decide (entryKey e = kFbref))
      = [(kFbref, rowCompleted)] ∧
     lookupKey entryKey (recordStatus (recordStatus ([] : StatusTable) kFbref
        rowInProgress) kFbref rowCompleted) kFbref = some (kFbref, rowCompleted) ∧
     NodupKeys entryKey (recordStatus (recordStatus ([] : StatusTable) kFbref
        rowInProgress) kFbref rowCompleted)) :=
  ⟨by unfold NodupKeys; decide,
   record_status_upsert_unique [] (by unfold NodupKeys; decide) kFbref
     rowInProgress rowCompleted⟩

/-- C2: upsert is idempotent on any destination table: applying the same
extracted row set twice yields the same final table state as applying it once;
the declared unique key stays duplicate-free; and a row whose key already
exists ends with the last-applied values. -/
theorem upsert_idempotent {K R : Type} [DecidableEq K] (key : R → K)
    (t rows : List R) (ht : NodupKeys key t) (hrows : (rows.map key).Nodup) :
    upsert key (upsert key t rows) rows = upsert key t rows ∧
    NodupKeys key (upsert key t rows) ∧
    (∀ r ∈ rows, lookupKey key (upsert key t rows) (key r) = some r) :=
  ⟨upsert_upsert_self key rows t hrows,
   nodupKeys_upsert key rows t ht,
   fun _ hr => lookupKey_upsert_mem key hrows t hr⟩

/-- Witness for C2 on a concrete batch of two rows keyed like
`understat_schedule` (`UNIQUE(league, season, game)`). -/
theorem upsert_idempotent_witness :
    NodupKeys Prod.fst ([] : List (BizKey × Nat)) ∧
    ([(bizK1, 2), (bizK2, 3)].map Prod.fst).Nodup ∧
    (upsert Prod.fst (upsert Prod.fst ([] : List (BizKey × Nat))
        [(bizK1, 2), (bizK2, 3)]) [(bizK1, 2), (bizK2, 3)]
      = upsert Prod.fst ([] : List (BizKey × Nat)) [(bizK1, 2), (bizK2, 3)] ∧
     NodupKeys Prod.fst (upsert Prod.fst ([] : List (BizKey × Nat))
        [(bizK1, 2), (bizK2, 3)]) ∧
     (∀ r ∈ [(bizK1, 2), (bizK2, 3)],
       lookupKey Prod.fst (upsert Prod.fst ([] : List (BizKey × Nat))
          [(bizK1, 2), (bizK2, 3)]) r.1 = some r)) :=
  ⟨by unfold NodupKeys; decide, by decide,
   upsert_idempotent Prod.fst [] [(bizK1, 2), (bizK2, 3)]
     (by unfold NodupKeys; decide) (by decide)⟩

/-- C3: a work unit whose fetch raises a transient error on every attempt
causes exactly `max_attempts` fetch calls — never more, never fewer — after
which the last transient error surfaces as `RetryExhaustedError` and the
unit's status row is written as `failed`. -/
theorem retry_exhaustion_bound (cfg : RetryConfig) (hM : 1 ≤ cfg.max_attempts)
    (env : StatusKey → Nat → Except FetchError Nat) (u : StatusKey)
    (msgs : Nat → String) (hu : ∀ n, env u n = .error (.transient (msgs n)))
    (now : Nat) (tbl : StatusTable) (hprior : lookupKey entryKey tbl u = none)
    (skip : Bool) :
    (runWithRetry cfg (env u)).2.1 = cfg.max_attempts ∧
    (runWithRetry cfg (env u)).1 = RetryResult.exhausted (msgs cfg.max_attempts) ∧
    (processUnit cfg env skip now tbl u).2 = cfg.max_attempts ∧
    lookupKey entryKey (processUnit cfg env skip now tbl u).1 u
      = some (u,
          { status := LoadState.failed, rows_processed := none,
            error_message := some (("RetryExhaustedError: ") ++ msgs cfg.max_attempts),
            started_at := some now, completed_at := some now,
            last_updated := now }) := by
  have hR := runWithRetry_transient cfg (env u) msgs hu hM
  refine ⟨by rw [hR], by rw [hR], ?_, ?_⟩
  · simp only [processUnit, hprior, Bool.and_false, Bool.false_eq_true, if_false, hR]
  · simp only [processUnit, hprior, Bool.and_false, Bool.false_eq_true, if_false, hR]
    rw [lookupKey_recordStatus_self]

/-- Witness for C3 with the default configuration: 3 fetch calls, then a
`failed` row carrying the `RetryExhaustedError` context. -/
theorem retry_exhaustion_bound_witness :
    (processUnit defaultRetryConfig envTransient false 7 [] kFbref).2 = 3 ∧
    lookupKey entryKey (processUnit defaultRetryConfig envTransient false 7 []
        kFbref).1 kFbref
      = some (kFbref,
          { status := LoadState.failed, rows_processed := none,
            error_message := some (("RetryExhaustedError: ") ++ ("timeout")),
            started_at := some 7, completed_at := some 7, last_updated := 7 }) :=
  (retry_exhaustion_bound defaultRetryConfig (by decide) envTransient kFbref
    (fun _ => ("timeout")) (fun _ => rfl) 7 [] rfl false).2.2

/-- C4: a work unit whose fetch raises a permanent error is never retried:
exactly one fetch call occurs, the error propagates at once, and the unit's
status row is immediately written as `failed`. -/
theorem permanent_error_no_retry (cfg : RetryConfig) (hM : 1 ≤ cfg.max_attempts)
    (env : StatusKey → Nat → Except FetchError Nat) (u : StatusKey) (m : String)
    (hu : env u 1 = .error (.permanent m)) (now : Nat) (tbl : StatusTable)
    (hprior : lookupKey entryKey tbl u = none) (skip : Bool) :
    (runWithRetry cfg (env u)).2.1 = 1 ∧
    (runWithRetry cfg (env u)).1 = RetryResult.permanentFail m ∧
    (processUnit cfg env skip now tbl u).2 = 1 ∧
    lookupKey entryKey (processUnit cfg env skip now tbl u).1 u
      = some (u,
          { status := LoadState.failed, rows_processed := none,
            error_message := some (("PermanentFetchError: ") ++ m),
            started_at := some now, completed_at := some now,
            last_updated := now }) := by
  have hR := runWithRetry_permanent cfg (env u) m hu hM
  refine ⟨by rw [hR], by rw [hR], ?_, ?_⟩
  · simp only [processUnit, hprior, Bool.and_false, Bool.false_eq_true, if_false, hR]
  · simp only [processUnit, hprior, Bool.and_false, Bool.false_eq_true, if_false, hR]
    rw [lookupKey_recordStatus_self]

/-- Witness for C4: one fetch call and an immediate `failed` row. -/
theorem permanent_error_no_retry_witness :
    (processUnit defaultRetryConfig envPermanent false 8 [] kFbref).2 = 1 ∧
    lookupKey entryKey (processUnit defaultRetryConfig envPermanent false 8 []
        kFbref).1 kFbref
      = some (kFbref,
          { status := LoadState.failed, rows_processed := none,
            error_message := some (("PermanentFetchError: ") ++ ("invalid league")),
            started_at := some 8, completed_at := some 8, last_updated := 8 }) :=
  (permanent_error_no_retry defaultRetryConfig (by decide) envPermanent kFbref
    ("invalid league") rfl 8 [] rfl false).2.2

/-- C5: with `skip_completed` set (the default), a unit whose prior status is
`completed` is skipped: no fetch call, no status write, table untouched; a
rerun of a fully completed run therefore makes zero fetch calls and leaves the
status table unchanged. -/
theorem skip_completed_no_fetch_no_write (cfg : RetryConfig)
    (env : StatusKey → Nat → Except FetchError Nat) (now : Nat) :
    (∀ (tbl : StatusTable) (u : StatusKey) (e : StatusKey × StatusRow),
      lookupKey entryKey tbl u = some e → e.2.status = LoadState.completed →
      processUnit cfg env true now tbl u = (tbl, 0)) ∧
    (∀ (tbl : StatusTable) (units : List StatusKey),
      (∀ u ∈ units, ∃ e, lookupKey entryKey tbl u = some e ∧
        e.2.status = LoadState.completed) →
      runOrchestrator cfg env true now tbl units = (tbl, 0)) :=
  ⟨fun tbl u _ he hst => processUnit_skip cfg env now tbl u he hst,
   fun tbl units h => runAux_all_completed cfg env now units tbl 0 h⟩

/-- Witness for C5: rerunning over an already completed unit performs zero
fetch calls and leaves the status table unchanged. -/
theorem skip_completed_no_fetch_no_write_witness :
    (∀ u ∈ [kFbref], ∃ e,
      lookupKey entryKey [(kFbref, rowCompleted)] u = some e ∧
      e.2.status = LoadState.completed) ∧
    runOrchestrator defaultRetryConfig envOk true 9 [(kFbref, rowCompleted)] [kFbref]
      = ([(kFbref, rowCompleted)], 0) :=
  ⟨fun u hu => by
    obtain rfl := List.mem_singleton.mp hu
    exact ⟨(kFbref, rowCompleted), by decide, rfl⟩,
   (skip_completed_no_fetch_no_write defaultRetryConfig envOk 9).2
     [(kFbref, rowCompleted)] [kFbref] (fun u hu => by
       obtain rfl := List.mem_singleton.mp hu
       exact ⟨(kFbref, rowCompleted), by decide, rfl⟩)⟩

/-- C6: isolation — comparing two runs that differ only in the fetch behaviour
of unit `A`, every other unit `B` ends the run with an identical status row;
one unit's failure never alters another unit's status and never aborts the
run. -/
theorem unit_failure_isolation (cfg : RetryConfig) (skip : Bool) (now : Nat)
    (env1 env2 : StatusKey → Nat → Except FetchError Nat) (A : StatusKey)
    (henv : ∀ u, u ≠ A → env1 u = env2 u) (tbl : StatusTable)
    (units : List StatusKey) (B : StatusKey) (hB : B ≠ A) :
    lookupKey entryKey (runOrchestrator cfg env1 skip now tbl units).1 B =
    lookupKey entryKey (runOrchestrator cfg env2 skip now tbl units).1 B :=
  runAux_lookup_congr cfg env1 env2 skip now A henv hB units (tbl, 0) (tbl, 0) rfl

/-- Witness for C6: whether the fbref unit fails permanently or succeeds, the
understat unit's final status row is identical. -/
theorem unit_failure_isolation_witness :
    kUnderstat ≠ kFbref ∧
    lookupKey entryKey (runOrchestrator defaultRetryConfig envFailA true 3 []
        [kFbref, kUnderstat]).1 kUnderstat =
    lookupKey entryKey (runOrchestrator defaultRetryConfig envOkA true 3 []
        [kFbref, kUnderstat]).1 kUnderstat :=
  ⟨by decide,
   unit_failure_isolation defaultRetryConfig true 3 envFailA envOkA kFbref
     (fun u hu => by
       funext n
       simp [envFailA, envOkA, hu])
     [] [kFbref, kUnderstat] kUnderstat (by decide)⟩

/-- C7: a status row left `in_progress` by an interrupted run is reprocessed
unconditionally on the next run — at least one fetch call, regardless of the
`skip_completed` flag — and no unit processed by a run is left `in_progress`
at its normal termination. -/
theorem in_progress_reprocessed (cfg : RetryConfig) (hM : 1 ≤ cfg.max_attempts)
    (env : StatusKey → Nat → Except FetchError Nat) (skip : Bool) (now : Nat) :
    (∀ (tbl : StatusTable) (u : StatusKey) (e : StatusKey × StatusRow),
      lookupKey entryKey tbl u = some e → e.2.status = LoadState.in_progress →
      1 ≤ (processUnit cfg env skip now tbl u).2 ∧
      (statusAt (processUnit cfg env skip now tbl u).1 u = some LoadState.completed ∨
       statusAt (processUnit cfg env skip now tbl u).1 u = some LoadState.failed)) ∧
    (∀ (tbl : StatusTable) (units : List StatusKey) (u : StatusKey), u ∈ units →
      (statusAt (runOrchestrator cfg env skip now tbl units).1 u
          = some LoadState.completed ∨
       statusAt (runOrchestrator cfg env skip now tbl units).1 u
          = some LoadState.failed)) :=
  ⟨fun tbl u _ he hst =>
    ⟨processUnit_in_progress_runs cfg env skip now tbl u hM he hst,
     processUnit_terminal cfg env skip now tbl u⟩,
   fun tbl units _ hu => runAux_terminal cfg env skip now units (tbl, 0) hu⟩

/-- Witness for C7: an abandoned `in_progress` row is reprocessed (one fetch
call at least) even with `skip_completed` set, and ends terminal. -/
theorem in_progress_reprocessed_witness :
    lookupKey entryKey [(kFbref, rowInProgress)] kFbref
      = some (kFbref, rowInProgress) ∧
    rowInProgress.status = LoadState.in_progress ∧
    (1 ≤ (processUnit defaultRetryConfig envOk true 4
        [(kFbref, rowInProgress)] kFbref).2 ∧
     (statusAt (processUnit defaultRetryConfig envOk true 4
          [(kFbref, rowInProgress)] kFbref).1 kFbref = some LoadState.completed ∨
      statusAt (processUnit defaultRetryConfig envOk true 4
          [(kFbref, rowInProgress)] kFbref).1 kFbref = some LoadState.failed)) :=
  ⟨by decide, rfl,
   (in_progress_reprocessed defaultRetryConfig (by decide) envOk true 4).1
     [(kFbref, rowInProgress)] kFbref (kFbref, rowInProgress) (by decide) rfl⟩

/-- C8: after every transiently failed attempt `n < max_attempts`, the wait
before attempt `n + 1` is `min(initial_delay * backoff_base^(n-1), max_delay)`;
under the default configuration (3 attempts, 2s initial, 60s cap, base 2) the
successive waits are exactly 2s then 4s. -/
theorem backoff_delay_schedule (cfg : RetryConfig)
    (op : Nat → Except FetchError Nat) (msgs : Nat → String)
    (hop : ∀ n, op n = .error (.transient (msgs n))) (hM : 1 ≤ cfg.max_attempts) :
    (runWithRetry cfg op).2.2
      = (List.range' 1 (cfg.max_attempts - 1)).map (backoffDelay cfg) ∧
    (∀ n, backoffDelay cfg n
      = min (cfg.initial_delay * cfg.backoff_base ^ (n - 1)) cfg.max_delay) ∧
    backoffDelay defaultRetryConfig 1 = 2 ∧
    backoffDelay defaultRetryConfig 2 = 4 ∧
    (runWithRetry defaultRetryConfig opTransient).2.2 = [2, 4] := by
  refine ⟨?_, fun n => rfl, by decide, by decide, ?_⟩
  · rw [runWithRetry_transient cfg op msgs hop hM]
  · rw [runWithRetry_transient defaultRetryConfig opTransient (fun _ => ("t"))
      (fun _ => rfl) (by decide)]
    decide

/-- Witness for C8: the default schedule of waits is `[2, 4]`. -/
theorem backoff_delay_schedule_witness :
    (runWithRetry defaultRetryConfig opTransient).2.2 = [2, 4] :=
  (backoff_delay_schedule defaultRetryConfig opTransient (fun _ => ("t"))
    (fun _ => rfl) (by decide)).2.2.2.2

/-- C9 (counterexample): the `season_id` domain also accepts 2-digit
identifiers, and the 4-digit identifier `"2021"` encodes the 2020-2021 season
(start year 2020) — not the season starting in 2021 as the claim states. -/
theorem season_format_counterexample :
    seasonIdOk ("16") = true ∧ ("16").length ≠ 4 ∧
    seasonStartYear ("2021") = some 2020 ∧ some 2020 ≠ some (2021 : Nat) := by
  refine ⟨by decide, by decide, by decide, by decide⟩

/-- C9 (amended): season identifiers accepted by the `season_id` domain are 2-
or 4-digit digit strings; the historical loader's expansion of
`[start_year, end_year]` produces only 4-digit identifiers concatenating the
two-digit suffixes of the season's start and end years (so `seasonCode`
round-trips for years 2000-2098, and the default 2020-2024 range yields
`"2021"` through `"2425"`); a bare 4-digit identifier such as `"2021"` denotes
the 2020-2021 season, i.e. the season ending in that year. -/
theorem season_format_amended :
    (∀ s : String, seasonIdOk s = true → s.length = 2 ∨ s.length = 4) ∧
    (∀ startY endY : Nat, ∀ s ∈ expandYears startY endY,
      seasonIdOk s = true ∧ s.length = 4) ∧
    (∀ y : Nat, 2000 ≤ y → y < 2099 →
      seasonStartYear (seasonCode y) = some y ∧
      seasonEndYear (seasonCode y) = some (y + 1)) ∧
    expandYears 2020 2024 = [("2021"), ("2122"), ("2223"), ("2324"), ("2425")] ∧
    seasonStartYear ("2021") = some 2020 ∧
    seasonEndYear ("2021") = some 2021 := by
  refine ⟨fun s h => seasonIdOk_length h, ?_, ?_, by decide, by decide, by decide⟩
  · intro startY endY s hs
    rcases List.mem_map.mp hs with ⟨y, _, rfl⟩
    exact ⟨seasonIdOk_seasonCode y, seasonCode_length y⟩
  · intro y h1 h2
    exact ⟨seasonStartYear_seasonCode h1 h2, seasonEndYear_seasonCode h1 h2⟩

/-- Witness for C9 (amended) at the concrete season `"2324"` of the default
historical range. -/
theorem season_format_amended_witness :
    (("2324") ∈ expandYears 2020 2024) ∧
    (seasonIdOk ("2324") = true ∧ ("2324").length = 4) :=
  ⟨by decide, season_format_amended.2.1 2020 2024 ("2324") (by decide)⟩

/-- C10: on any upsert hitting an existing business-table row — including one
rewriting identical values — the `BEFORE UPDATE` trigger
`update_updated_at_column` sets the row's `updated_at` to the current time,
while the unique key and `created_at` are unchanged and the business columns
take the applied values; hence re-applying an identical row leaves every
business column equal but does not leave `updated_at` equal. -/
theorem updated_at_trigger_on_update {V : Type} (now : Nat) (t : List (BizRow V))
    (k : BizKey) (v : V) (x : BizRow V) (hx : lookupKey BizRow.key t k = some x) :
    lookupKey BizRow.key (upsertBiz now t k v) k
      = some { key := x.key, value := v, created_at := x.created_at,
               updated_at := now } ∧
    (v = x.value → now ≠ x.updated_at →
      lookupKey BizRow.key (upsertBiz now t k v) k ≠ some x) := by
  have h1 := lookupKey_upsertBiz now t k v x hx
  refine ⟨h1, ?_⟩
  intro _ hne hcontra
  rw [h1] at hcontra
  exact hne (congrArg BizRow.updated_at (Option.some_inj.mp hcontra))

/-- Witness for C10: rewriting an identical row at time 20 keeps key, value
and `created_at` but moves `updated_at` to 20, so the stored row changes. -/
theorem updated_at_trigger_on_update_witness :
    lookupKey BizRow.key [bizRow1] bizK1 = some bizRow1 ∧
    (lookupKey BizRow.key (upsertBiz 20 [bizRow1] bizK1 bizRow1.value) bizK1
      = some { key := bizRow1.key, value := bizRow1.value,
               created_at := bizRow1.created_at, updated_at := 20 } ∧
     (bizRow1.value = bizRow1.value → 20 ≠ bizRow1.updated_at →
      lookupKey BizRow.key (upsertBiz 20 [bizRow1] bizK1 bizRow1.value) bizK1
        ≠ some bizRow1)) :=
  ⟨by decide, updated_at_trigger_on_update 20 [bizRow1] bizK1 bizRow1.value
    bizRow1 (by decide)⟩

end Soccerdata
